import Mathlib

/-!
# Verification of the stream music generator (`src/genv1.0.py`)

Shallow embedding of the single-file Python program. Modelling conventions:

* Python `dict` / `defaultdict` / `Counter` values are embedded as association
  lists (`List (κ × ν)`) that preserve Python's insertion-order iteration
  semantics: writing an absent key appends the binding at the end, writing a
  present key replaces the value in place.
* Machine integers are `ℕ` / `ℤ` (Python integers are unbounded, so no
  wrap-around modelling is needed).
* The pseudo-random source (`random.random`, `random.choices`,
  `random.choice`) is embedded as an explicit stream `g : ℕ → ℚ` of uniform
  draws in `[0,1)` together with a cursor that advances exactly when the
  Python code consumes a draw.  `random.choices(population, weights)` is the
  cumulative-weight selection over one uniform draw; `random.choice(seq)` is
  `seq[⌊u * len(seq)⌋]` for one uniform draw `u`.
* Float literals (`0.55`, `0.9`, …) are embedded as the rationals they denote.
  The only non-rational float computation, the melodic-distance penalty
  `(interval / 7.0) ** 1.2` in `choose_note`, is embedded as an abstract
  parameter `pen : ℕ → ℚ`; theorems that need facts about it assume only
  `0 ≤ pen i`, which holds for the real-power expression.
* File-system and MIDI-binary I/O (`mido` parsing/serialising, `os.listdir`)
  are out of scope per the specification; a directory is modelled as a list of
  (file name, parsed file) pairs and `load_midis` keeps the source's
  lexicographic-order traversal.
-/

namespace StreamGen

/-! ## Configuration constants (module constants of the source) -/

/-- `MAX_GLOBAL_POLY = 5`: maximum simultaneous notes across all channels. -/
def MAX_GLOBAL_POLY : ℕ := 5

/-- `MAX_CHANNELS = 5`: how many channels are used at most. -/
def MAX_CHANNELS : ℕ := 5

/-- `GRID = 240`: step size in ticks. -/
def GRID : ℕ := 240

/-- `BARS = 32`: generated length in bars. -/
def BARS : ℕ := 32

/-- `ONSET_PROB = 0.55`: per-step onset probability (float `0.55` as the
rational 11/20; `mkRat` rather than `/` so that the kernel can evaluate it). -/
def ONSET_PROB : ℚ := mkRat 11 20

/-! ## Association lists: the embedding of Python dictionaries -/

section AssocList

variable {κ ν : Type} [DecidableEq κ]

/-- Python `m.get(k)` / `k in m`: first binding of `k` in insertion order. -/
def alGet? : List (κ × ν) → κ → Option ν
  | [], _ => none
  | (a, v) :: m, k => if a = k then some v else alGet? m k

/-- Python `m.get(k, d)`. -/
def alGetD (m : List (κ × ν)) (k : κ) (d : ν) : ν :=
  (alGet? m k).getD d

/-- Python `m[k] = v`: replace in place when present, append when absent. -/
def alSet : List (κ × ν) → κ → ν → List (κ × ν)
  | [], k, v => [(k, v)]
  | (a, w) :: m, k, v => if a = k then (k, v) :: m else (a, w) :: alSet m k v

/-- Python `m.pop(k)`: drop the binding of `k`. -/
def alErase : List (κ × ν) → κ → List (κ × ν)
  | [], _ => []
  | (a, w) :: m, k => if a = k then m else (a, w) :: alErase m k

theorem alGet?_alSet (m : List (κ × ν)) (k k' : κ) (v : ν) :
    alGet? (alSet m k v) k' = if k = k' then some v else alGet? m k' := by
  induction m with
  | nil =>
    simp [alSet, alGet?]
  | cons p m ih =>
    obtain ⟨a, w⟩ := p
    by_cases hak : a = k
    · subst hak
      by_cases h : a = k' <;> simp [alSet, alGet?, h]
    · simp only [alSet, if_neg hak, alGet?]
      by_cases hak' : a = k'
      · subst hak'
        have : ¬ k = a := fun h => hak h.symm
        simp [this, alGet?]
      · simp [hak', ih]

theorem alGetD_alSet (m : List (κ × ν)) (k k' : κ) (v : ν) (d : ν) :
    alGetD (alSet m k v) k' d = if k = k' then v else alGetD m k' d := by
  by_cases h : k = k' <;> simp [alGetD, alGet?_alSet, h]

theorem mem_alSet {m : List (κ × ν)} {k : κ} {v : ν} {x : κ × ν}
    (hx : x ∈ alSet m k v) : x = (k, v) ∨ x ∈ m := by
  induction m with
  | nil => simpa [alSet] using hx
  | cons p m ih =>
    obtain ⟨a, w⟩ := p
    by_cases hak : a = k
    · subst hak
      rcases (by simpa [alSet] using hx : x = (a, v) ∨ x ∈ m) with h | h
      · exact Or.inl (by simpa using h)
      · exact Or.inr (List.mem_cons_of_mem _ h)
    · rcases (by simpa [alSet, hak] using hx : x = (a, w) ∨ x ∈ alSet m k v) with h | h
      · exact Or.inr (h ▸ List.mem_cons_self _ _)
      · rcases ih h with h' | h'
        · exact Or.inl h'
        · exact Or.inr (List.mem_cons_of_mem _ h')

end AssocList

/-! ## Transition Model Builder (`build_markov_models`)

The per-voice table is a Python `defaultdict(Counter)`.  The inner `Counter`
maps a next pitch to a count; the outer dict maps a previous pitch to the
inner counter.  The outer dict is only ever *written* with integer keys, but
during generation it is *read* with `last_note.get(ch, None)`, which may be
`None`; we therefore give the outer dict the key type `Option ℤ`, with all
writes using `some pitch` — exactly Python's heterogeneous-key dict probed
with `None`. -/

/-- Inner `Counter`: next pitch ↦ observed count, in insertion order. -/
abbrev Cnt := List (ℤ × ℕ)

/-- Outer transition dict: previous pitch ↦ `Counter`, in insertion order. -/
abbrev Trans := List (Option ℤ × Cnt)

/-- `trans[cur][nxt] += 1` on a `defaultdict(Counter)`. -/
def transIncr (t : Trans) (cur nxt : ℤ) : Trans :=
  let inner := alGetD t (some cur) []
  alSet t (some cur) (alSet inner nxt (alGetD inner nxt 0 + 1))

/-- The transition table of one voice: `for i in range(len(arr)-1):
trans[arr[i][0]][arr[i+1][0]] += 1` where `arr` is the `(note, dur)` list. -/
def build_markov_one (arr : List (ℤ × ℤ)) : Trans :=
  (arr.zip arr.tail).foldl (fun t p => transIncr t p.1.1 p.2.1) []

/-- `build_markov_models(seqs)`: one table per voice, in `seqs` key order. -/
def build_markov_models (seqs : List (ℕ × List (ℤ × ℤ))) : List (ℕ × Trans) :=
  seqs.map (fun p => (p.1, build_markov_one p.2))

/-! ## Note Selector (`choose_note`)

`choose_note(trans_counter, prev_note, fallback_notes)` consumes zero or one
uniform draw depending on the branch taken; the embedding returns the chosen
pitch together with the advanced draw cursor. -/

/-- The melodic-distance factor `1.0 if interval == 0 else
`1 / (1 + (interval/7.0) ** 1.2)`; the float power is the abstract `pen`. -/
def lead_weight (pen : ℕ → ℚ) (interval : ℕ) : ℚ :=
  if interval = 0 then 1 else 1 / (1 + pen interval)

/-- The sampling loop of `choose_note`: running cumulative sum `s`, return the
first candidate with `r ≤ s`; if the loop exhausts, return the last candidate
seen (`weights[-1][0]`; the accumulator `last` carries it). -/
def cum_pick (r : ℚ) : ℚ → List (ℤ × ℚ) → ℤ → ℤ
  | _, [], last => last
  | s, (n, w) :: rest, _ => if r ≤ s + w then n else cum_pick r (s + w) rest n

/-- Python `random.choice(seq)` on a nonempty list, for one uniform draw. -/
def rand_choice (l : List ℤ) (u : ℚ) : ℤ :=
  l.getD (Int.toNat ⌊u * (l.length : ℚ)⌋) 60

/-- The weight list built by the `for note, cnt in candidates` loop:
`interval = abs(note - prev_note) if prev_note is not None else 0` and
`w = cnt * lead`. -/
def note_weights (cand : List (ℤ × ℕ)) (prev_note : Option ℤ)
    (pen : ℕ → ℚ) : List (ℤ × ℚ) :=
  cand.map (fun nc =>
    let interval : ℕ := match prev_note with
      | some p => (nc.1 - p).natAbs
      | none => 0
    (nc.1, (nc.2 : ℚ) * lead_weight pen interval))

/-- `choose_note(trans_counter, prev_note, fallback_notes)`.  `g` is the draw
stream, `i` the cursor; the result pairs the pitch with the new cursor. -/
def choose_note (trans_counter : Cnt) (prev_note : Option ℤ)
    (fallback_notes : List ℤ) (pen : ℕ → ℚ) (g : ℕ → ℚ) (i : ℕ) : ℤ × ℕ :=
  match trans_counter with
  | c :: cs =>
    let weights := note_weights (c :: cs) prev_note pen
    let total := (weights.map Prod.snd).sum
    if total ≤ 0 then (c.1, i)
    else (cum_pick (g i * total) 0 weights 60, i + 1)
  | [] =>
    match fallback_notes with
    | [] => (60, i)
    | f :: fs => (rand_choice (f :: fs) (g i), i + 1)

/-! ## Sequencer / Generator (`generate_events`)

Generation state: the accumulated events (flat, in append order, each tagged
with its channel — Python's `events_by_ch[ch]` list is the subsequence with
that channel tag), the `active_until` and `last_note` dicts, and the draw
cursor. -/

/-- One emitted `note_on` / `note_off` message at an absolute tick. -/
structure GEv where
  tick : ℕ
  channel : ℕ
  isOn : Bool
  note : ℤ
  velocity : ℕ
deriving DecidableEq, Repr

structure GenState where
  events : List GEv
  active_until : List (ℕ × ℕ)
  last_note : List (ℕ × ℤ)
  rng : ℕ
deriving DecidableEq, Repr

/-- `global_active = sum(1 for end in active_until.values() if end > abs_tick)`. -/
def busyCount (au : List (ℕ × ℕ)) (t : ℕ) : ℕ :=
  (au.filter (fun p => t < p.2)).length

/-- `random.choices([1, 2], weights=[0.9, 0.1])` for one uniform draw
(cumulative weights `[0.9, 1.0]`, floats as decimals). -/
def choices12 (u : ℚ) : ℕ :=
  if u < mkRat 9 10 then 1 else 2

/-- `random.choices([1, 2, 4], weights=[0.6, 0.3, 0.1])` for one uniform draw
(cumulative weights `[0.6, 0.9, 1.0]`). -/
def choices124 (u : ℚ) : ℕ :=
  if u < mkRat 6 10 then 1 else if u < mkRat 9 10 then 2 else 4

/-- The body of `for step in range(steps)` in `generate_events`.  Draws are
consumed exactly as Python's short-circuit `and` does: the onset draw happens
only when the round-robin channel is idle and the ceiling is not reached. -/
def generate_step (models : List (ℕ × Trans)) (fallback_notes : ℕ → List ℤ)
    (channels : List ℕ) (pen : ℕ → ℚ) (g : ℕ → ℚ)
    (st : GenState) (step : ℕ) : GenState :=
  let abs_tick := step * GRID
  let global_active := busyCount st.active_until abs_tick
  let ch := channels.getD (step % channels.length) 0
  let ch_busy := abs_tick < alGetD st.active_until ch 0
  if ch_busy ∨ ¬ global_active < MAX_GLOBAL_POLY then st
  else if ¬ g st.rng < ONSET_PROB then { st with rng := st.rng + 1 }
  else
    let i1 := st.rng + 1
    let dur_steps :=
      if MAX_GLOBAL_POLY - 1 ≤ global_active then choices12 (g i1)
      else choices124 (g i1)
    let i2 := i1 + 1
    let dur_ticks := dur_steps * GRID
    let model := alGetD models ch []
    let prev := alGet? st.last_note ch
    let cn := choose_note (alGetD model prev []) prev (fallback_notes ch) pen g i2
    { events := st.events ++
        [⟨abs_tick, ch, true, cn.1, 96⟩,
         ⟨abs_tick + dur_ticks, ch, false, cn.1, 0⟩],
      active_until := alSet st.active_until ch (abs_tick + dur_ticks),
      last_note := alSet st.last_note ch cn.1,
      rng := cn.2 }

/-- The first `n` iterations of the generation loop, from the empty state. -/
def generate_run (models : List (ℕ × Trans)) (fallback_notes : ℕ → List ℤ)
    (channels : List ℕ) (pen : ℕ → ℚ) (g : ℕ → ℚ) : ℕ → GenState
  | 0 => ⟨[], [], [], 0⟩
  | n + 1 =>
    generate_step models fallback_notes channels pen g
      (generate_run models fallback_notes channels pen g n) n

/-- The generated note spans: the events list is appended to two messages at
a time (a `note_on` immediately followed by its `note_off`), so chunking it
into consecutive pairs recovers the `(channel, start tick, end tick)` spans. -/
def notePairs : List GEv → List (ℕ × ℕ × ℕ)
  | a :: b :: rest => (a.channel, a.tick, b.tick) :: notePairs rest
  | _ => []

/-- `generate_events(models, seqs, programs, tpb, tempo)`: channel selection
by activity (Python's stable `sorted` with key `-len`, embedded as the stable
`insertionSort` with the reflected relation), fallback channels `[0,1,2,3]`,
then the stepping loop.  Returns `(events, channels)`; `programs` and `tempo`
are accepted and unused, as in the source. -/
def generate_events (models : List (ℕ × Trans)) (seqs : List (ℕ × List (ℤ × ℤ)))
    (programs : List (ℕ × ℕ)) (tpb : ℕ) (tempo : ℕ)
    (pen : ℕ → ℚ) (g : ℕ → ℚ) : List GEv × List ℕ :=
  let channel_activity :=
    List.insertionSort (fun a b : ℕ × List (ℤ × ℤ) => b.2.length ≤ a.2.length) seqs
  let channels0 := (channel_activity.map Prod.fst).take MAX_CHANNELS
  let channels := if channels0 = [] then [0, 1, 2, 3] else channels0
  let total_ticks := BARS * 4 * tpb
  let steps := total_ticks / GRID
  let fallback_notes := fun ch => (alGetD seqs ch []).map Prod.fst
  ((generate_run models fallback_notes channels pen g steps).events, channels)

/-! ## Sequence Extractor (`extract_sequences`) -/

/-- The messages the extractor inspects (`mido` message kinds). -/
inductive MMsg where
  | note_on (channel : ℕ) (note : ℤ) (velocity : ℕ)
  | note_off (channel : ℕ) (note : ℤ)
  | program_change (channel : ℕ) (program : ℕ)
  | set_tempo (tempo : ℕ)
  | other
deriving DecidableEq, Repr

/-- A track message with its delta time. -/
structure TrackEv where
  time : ℕ
  msg : MMsg
deriving DecidableEq, Repr

/-- A parsed MIDI file: `ticks_per_beat` plus tracks of delta-timed messages. -/
structure MidiFile where
  ticks_per_beat : ℕ
  tracks : List (List TrackEv)
deriving DecidableEq, Repr

/-- Accumulate delta times into absolute times along one track. -/
def absTimes (t0 : ℕ) : List TrackEv → List (ℕ × MMsg)
  | [] => []
  | e :: es => (t0 + e.time, e.msg) :: absTimes (t0 + e.time) es

/-- Per-file event list: all tracks flattened to absolute time and stably
sorted by time (`events.sort(key=lambda x: x[0])`). -/
def fileEvents (f : MidiFile) : List (ℕ × MMsg) :=
  List.insertionSort (fun a b : ℕ × MMsg => a.1 ≤ b.1)
    ((f.tracks.map (absTimes 0)).flatten)

/-- The cross-file extractor accumulator: `seqs`, `programs`, `tempo`. -/
structure ExtractAcc where
  seqs : List (ℕ × List (ℤ × ℤ))
  programs : List (ℕ × ℕ)
  tempo : ℕ
deriving DecidableEq, Repr

/-- `seqs[ch].append(p)` on a `defaultdict(list)`. -/
def seqAppend (seqs : List (ℕ × List (ℤ × ℤ))) (ch : ℕ) (p : ℤ × ℤ) :
    List (ℕ × List (ℤ × ℤ)) :=
  alSet seqs ch (alGetD seqs ch [] ++ [p])

/-- One event of the per-file scan.  `active` is the per-file dict of
currently sounding `(channel, note) ↦ start` (Python's `defaultdict(dict)`
nesting flattened to a pair key).  A `note_on` with velocity zero is handled
exactly like a `note_off`; a measured duration `≤ 0` falls back to
`ticks_per_beat // 4`; an unmatched release is ignored. -/
def process_event (tpb : ℕ) (acc : ExtractAcc × List ((ℕ × ℤ) × ℕ))
    (ev : ℕ × MMsg) : ExtractAcc × List ((ℕ × ℤ) × ℕ) :=
  let a := acc.1
  let active := acc.2
  let close := fun (ch : ℕ) (n : ℤ) =>
    match alGet? active (ch, n) with
    | some start =>
      let dur : ℤ := (ev.1 : ℤ) - (start : ℤ)
      let dur' : ℤ := if dur ≤ 0 then ((tpb / 4 : ℕ) : ℤ) else dur
      ({ a with seqs := seqAppend a.seqs ch (n, dur') }, alErase active (ch, n))
    | none => (a, active)
  match ev.2 with
  | .set_tempo tp => ({ a with tempo := tp }, active)
  | .program_change ch pr => ({ a with programs := alSet a.programs ch pr }, active)
  | .note_on ch n v => if 0 < v then (a, alSet active (ch, n) ev.1) else close ch n
  | .note_off ch n => close ch n
  | .other => (a, active)

/-- One file of the extractor loop: refresh `ticks_per_beat` with
`mid.ticks_per_beat or ticks_per_beat` (keep the old value when the new one
is zero), then scan the file's time-sorted events with a fresh `active`. -/
def process_file (st : ExtractAcc × ℕ) (f : MidiFile) : ExtractAcc × ℕ :=
  let tpb := if f.ticks_per_beat ≠ 0 then f.ticks_per_beat else st.2
  (((fileEvents f).foldl (process_event tpb) (st.1, [])).1, tpb)

/-- `extract_sequences(mid_files)`: returns
`(seqs, programs, ticks_per_beat, tempo)` with defaults `480` and `500000`. -/
def extract_sequences (mids : List MidiFile) :
    List (ℕ × List (ℤ × ℤ)) × List (ℕ × ℕ) × ℕ × ℕ :=
  let r := mids.foldl process_file (⟨[], [], 500000⟩, 480)
  (r.1.seqs, r.1.programs, r.2, r.1.tempo)

/-! ## Output assembly (`write_midi`) and the pipeline (`main`) -/

/-- A serialised output message with its delta time. -/
inductive OutMsg where
  | program_change (time : ℕ) (channel : ℕ) (program : ℕ)
  | note (time : ℕ) (channel : ℕ) (isOn : Bool) (note : ℤ) (velocity : ℕ)
  | set_tempo (time : ℕ) (tempo : ℕ)
deriving DecidableEq, Repr

/-- `write_midi(events_by_ch, channels, programs, tpb, tempo, out_path)`
minus the file save: one track per channel in ascending channel order, a
program-change (default program 6) first, events stably sorted by absolute
tick and converted to deltas (`max(0, delta)` is ℕ-subtraction), and the
tempo marker prepended to the first track. -/
def write_midi (events : List GEv) (channels : List ℕ)
    (programs : List (ℕ × ℕ)) (tempo : ℕ) : List (List OutMsg) :=
  let tracks := (List.insertionSort (fun a b : ℕ => a ≤ b) channels).map (fun ch =>
    let prog := alGetD programs ch 6
    let evs := events.filter (fun e => e.channel = ch)
    if evs = [] then [OutMsg.program_change 0 ch prog]
    else
      let sorted := List.insertionSort (fun a b : GEv => a.tick ≤ b.tick) evs
      (sorted.foldl
        (fun (p : List OutMsg × ℕ) e =>
          (p.1 ++ [OutMsg.note (e.tick - p.2) e.channel e.isOn e.note e.velocity],
           e.tick))
        ([OutMsg.program_change 0 ch prog], 0)).1)
  match tracks with
  | [] => []
  | t :: ts => (OutMsg.set_tempo 0 tempo :: t) :: ts

/-- `load_midis(folder)`: the directory is a list of (name, parsed file)
pairs for the loadable `.mid` files; `sorted(os.listdir(folder))` is the
stable sort by name. -/
def load_midis (dir : List (ℕ × MidiFile)) : List MidiFile :=
  (List.insertionSort (fun a b : ℕ × MidiFile => a.1 ≤ b.1) dir).map Prod.snd

/-- The pipeline of `main` after loading: `None` models the early
`return` when no MIDI file loaded; otherwise extraction, model building,
generation and output assembly. -/
def run_pipeline (mids : List MidiFile) (pen : ℕ → ℚ) (g : ℕ → ℚ) :
    Option (List (List OutMsg)) :=
  match mids with
  | [] => none
  | _ =>
    let e := extract_sequences mids
    let models := build_markov_models e.1
    let ge := generate_events models e.1 e.2.1 e.2.2.1 e.2.2.2 pen g
    some (write_midi ge.1 ge.2 e.2.1 e.2.2.2)

/-- `main()` as a function of the directory listing and the draw stream. -/
def main (dir : List (ℕ × MidiFile)) (pen : ℕ → ℚ) (g : ℕ → ℚ) :
    Option (List (List OutMsg)) :=
  run_pipeline (load_midis dir) pen g

/-! ## Lemmas about the Note Selector -/

theorem cum_pick_eq_last_or_mem (r : ℚ) (ws : List (ℤ × ℚ)) :
    ∀ (s : ℚ) (last : ℤ),
      cum_pick r s ws last = last ∨ cum_pick r s ws last ∈ ws.map Prod.fst := by
  induction ws with
  | nil => intro s last; exact Or.inl rfl
  | cons w ws ih =>
    intro s last
    obtain ⟨n, wt⟩ := w
    by_cases h : r ≤ s + wt
    · right; simp [cum_pick, h]
    · rcases ih (s + wt) n with h' | h'
      · right
        simp only [cum_pick, if_neg h, h']
        simp
      · right
        simp only [cum_pick, if_neg h]
        exact List.mem_cons_of_mem _ h'

theorem cum_pick_mem (r s : ℚ) (w : ℤ × ℚ) (ws : List (ℤ × ℚ)) (last : ℤ) :
    cum_pick r s (w :: ws) last ∈ (w :: ws).map Prod.fst := by
  obtain ⟨n, wt⟩ := w
  by_cases h : r ≤ s + wt
  · simp [cum_pick, h]
  · simp only [cum_pick, if_neg h]
    rcases cum_pick_eq_last_or_mem r ws (s + wt) n with h' | h'
    · simp [h']
    · exact List.mem_cons_of_mem _ h'

theorem note_weights_map_fst (cand : List (ℤ × ℕ)) (prev : Option ℤ)
    (pen : ℕ → ℚ) : (note_weights cand prev pen).map Prod.fst = cand.map Prod.fst := by
  simp [note_weights, List.map_map, Function.comp]

theorem cum_pick_singleton (r s : ℚ) (n : ℤ) (w : ℚ) (last : ℤ) :
    cum_pick r s [(n, w)] last = n := by
  by_cases h : r ≤ s + w <;> simp [cum_pick, h]

theorem choose_note_cons_pos (c : ℤ × ℕ) (cs : List (ℤ × ℕ)) (prev : Option ℤ)
    (pool : List ℤ) (pen g : ℕ → ℚ) (i : ℕ)
    (h : ¬ ((note_weights (c :: cs) prev pen).map Prod.snd).sum ≤ 0) :
    choose_note (c :: cs) prev pool pen g i
      = (cum_pick (g i * ((note_weights (c :: cs) prev pen).map Prod.snd).sum) 0
          (note_weights (c :: cs) prev pen) 60, i + 1) := by
  simp [choose_note, h]

theorem rand_choice_mem (l : List ℤ) (u : ℚ) (hne : l ≠ [])
    (h0 : 0 ≤ u) (h1 : u < 1) : rand_choice l u ∈ l := by
  have hlen : 0 < l.length := List.length_pos.mpr hne
  have hlenQ : (0 : ℚ) < (l.length : ℚ) := by exact_mod_cast hlen
  have hfl0 : 0 ≤ ⌊u * (l.length : ℚ)⌋ :=
    Int.floor_nonneg.mpr (mul_nonneg h0 (le_of_lt hlenQ))
  have hflt : ⌊u * (l.length : ℚ)⌋ < (l.length : ℤ) := by
    apply Int.floor_lt.mpr
    push_cast
    calc u * (l.length : ℚ) < 1 * (l.length : ℚ) := by
          exact mul_lt_mul_of_pos_right h1 hlenQ
      _ = (l.length : ℚ) := one_mul _
  have hidx : Int.toNat ⌊u * (l.length : ℚ)⌋ < l.length := by omega
  rw [rand_choice, List.getD_eq_getElem l 60 hidx]
  exact List.getElem_mem hidx

/-! ## Lemmas about the Transition Model Builder -/

theorem transIncr_count (t : Trans) (c n a b : ℤ) :
    alGetD (alGetD (transIncr t c n) (some a) []) b 0
      = alGetD (alGetD t (some a) []) b 0 + (if c = a ∧ n = b then 1 else 0) := by
  unfold transIncr
  by_cases hca : c = a
  · subst hca
    by_cases hnb : n = b
    · subst hnb
      simp [alGetD_alSet]
    · simp [alGetD_alSet, hnb]
  · have hne : (some c : Option ℤ) ≠ some a := by simpa using hca
    simp [alGetD_alSet, hne, hca]

theorem foldl_transIncr_count (l : List ((ℤ × ℤ) × (ℤ × ℤ))) :
    ∀ (t : Trans) (a b : ℤ),
      alGetD (alGetD (l.foldl (fun t p => transIncr t p.1.1 p.2.1) t) (some a) []) b 0
        = alGetD (alGetD t (some a) []) b 0
            + (l.filter (fun p => p.1.1 = a ∧ p.2.1 = b)).length := by
  induction l with
  | nil => intro t a b; simp
  | cons p l ih =>
    intro t a b
    rw [List.foldl_cons, ih, transIncr_count]
    by_cases h : p.1.1 = a ∧ p.2.1 = b
    · simp [List.filter_cons, h]
      omega
    · simp [List.filter_cons, h]

theorem alGet?_build_markov_one_none (arr : List (ℤ × ℤ)) :
    alGet? (build_markov_one arr) (none : Option ℤ) = none := by
  suffices h : ∀ (l : List ((ℤ × ℤ) × (ℤ × ℤ))) (t : Trans),
      alGet? t (none : Option ℤ) = none →
      alGet? (l.foldl (fun t p => transIncr t p.1.1 p.2.1) t) (none : Option ℤ) = none by
    exact h _ [] rfl
  intro l
  induction l with
  | nil => intro t ht; exact ht
  | cons p l ih =>
    intro t ht
    rw [List.foldl_cons]
    apply ih
    unfold transIncr
    rw [alGet?_alSet]
    simp [ht]

theorem alGet?_build_markov_models (seqs : List (ℕ × List (ℤ × ℤ))) (ch : ℕ) :
    alGet? (build_markov_models seqs) ch = (alGet? seqs ch).map build_markov_one := by
  induction seqs with
  | nil => simp [build_markov_models, alGet?]
  | cons p seqs ih =>
    by_cases h : p.1 = ch
    · simp [build_markov_models, alGet?, h]
    · simpa [build_markov_models, alGet?, h] using ih

/-! ## Claim theorems: C4, C5, C9 -/

/-- **C4** (Note Selector policy).  For `select(table, previousPitch,
fallbackPool)`: with a non-empty conditioned table, weights are
`count * lead` (`note_weights` with the melodic-distance factor
`lead_weight`); if the total weight is `≤ 0` the first candidate in table
iteration order is returned with no draw consumed; if the total is positive,
one of the candidates is returned by the cumulative-weight draw; the sole
candidate of `{60: {60: 5}}` with previous pitch 60 is returned for every
draw value; with an empty table and a non-empty fallback pool a uniformly
drawn element of the pool is returned; with both empty, the fixed pitch 60.
Every branch is a total function — no input of these shapes can raise. -/
theorem choose_note_policy (pen g : ℕ → ℚ) (i : ℕ) (prev : Option ℤ)
    (pool : List ℤ) :
    (∀ c cs, ((note_weights (c :: cs) prev pen).map Prod.snd).sum ≤ 0 →
        choose_note (c :: cs) prev pool pen g i = (c.1, i)) ∧
    (∀ c cs, 0 < ((note_weights (c :: cs) prev pen).map Prod.snd).sum →
        (choose_note (c :: cs) prev pool pen g i).1 ∈ (c :: cs).map Prod.fst ∧
        (choose_note (c :: cs) prev pool pen g i).2 = i + 1) ∧
    choose_note [(60, 5)] (some 60) pool pen g i = (60, i + 1) ∧
    (∀ f fs, choose_note [] prev (f :: fs) pen g i
        = (rand_choice (f :: fs) (g i), i + 1)) ∧
    (∀ f fs, 0 ≤ g i → g i < 1 → rand_choice (f :: fs) (g i) ∈ (f :: fs)) ∧
    choose_note [] prev [] pen g i = (60, i) := by
  refine ⟨?_, ?_, ?_, ?_, ?_, ?_⟩
  · intro c cs h
    simp [choose_note, h]
  · intro c cs h
    have hnot : ¬ ((note_weights (c :: cs) prev pen).map Prod.snd).sum ≤ 0 :=
      not_le.mpr h
    rw [choose_note_cons_pos c cs prev pool pen g i hnot]
    refine ⟨?_, rfl⟩
    show cum_pick _ 0 (note_weights (c :: cs) prev pen) 60 ∈ (c :: cs).map Prod.fst
    cases hW : note_weights (c :: cs) prev pen with
    | nil => exact absurd hW (by simp [note_weights])
    | cons w ws =>
      have hm := cum_pick_mem
        (g i * ((note_weights (c :: cs) prev pen).map Prod.snd).sum) 0 w ws 60
      rw [← hW, note_weights_map_fst, hW] at hm
      exact hm
  · have hw : note_weights [((60 : ℤ), (5 : ℕ))] (some 60) pen
        = [((60 : ℤ), (5 : ℚ))] := by
      simp [note_weights, lead_weight]
    have hnot : ¬ ((note_weights [((60 : ℤ), (5 : ℕ))] (some 60) pen).map
        Prod.snd).sum ≤ 0 := by
      rw [hw]; norm_num
    rw [choose_note_cons_pos _ _ _ pool pen g i hnot, hw, cum_pick_singleton]
  · intro f fs
    simp [choose_note]
  · intro f fs h0 h1
    exact rand_choice_mem (f :: fs) (g i) (List.cons_ne_nil f fs) h0 h1
  · simp [choose_note]

/-- Witness for C4 at concrete inputs. -/
theorem choose_note_policy_witness :
    choose_note [((7 : ℤ), (0 : ℕ))] none [] (fun _ => 0) (fun _ => 0) 0 = (7, 0) ∧
    choose_note [((60 : ℤ), (5 : ℕ))] (some 60) [] (fun _ => 0) (fun _ => 1/2) 3
      = (60, 4) ∧
    rand_choice [(10 : ℤ), 20, 30] ((fun _ => (2 : ℚ)/3) 0) ∈ [(10 : ℤ), 20, 30] := by
  refine ⟨?_, ?_, ?_⟩
  · exact (choose_note_policy (fun _ => 0) (fun _ => 0) 0 none []).1 (7, 0) []
      (by simp [note_weights, lead_weight])
  · exact (choose_note_policy (fun _ => 0) (fun _ => 1/2) 3 (some 60) []).2.2.1
  · exact (choose_note_policy (fun _ => 0) (fun _ => (2 : ℚ)/3) 0 none []).2.2.2.2.1
      10 [20, 30] (by norm_num) (by norm_num)

/-- **C5** (Transition table construction).  The count stored at
`table[a][b]` is exactly the number of consecutive pairs `(a, b)` in the
voice's pitch sequence (and absent entries read as zero, so the table holds
nothing else); a sequence with fewer than two notes yields an empty table;
the pitch sequence `[60, 62, 60, 64]` yields exactly
`{60: {62: 1, 64: 1}, 62: {60: 1}}`. -/
theorem markov_table_construction (arr : List (ℤ × ℤ)) (a b : ℤ) :
    alGetD (alGetD (build_markov_one arr) (some a) []) b 0
        = ((arr.zip arr.tail).filter (fun p => p.1.1 = a ∧ p.2.1 = b)).length ∧
    (∀ arr2 : List (ℤ × ℤ), arr2.length < 2 → build_markov_one arr2 = []) ∧
    build_markov_one [(60, 1), (62, 1), (60, 1), (64, 1)] =
      [(some 60, [(62, 1), (64, 1)]), (some 62, [(60, 1)])] := by
  refine ⟨?_, ?_, by decide⟩
  · rw [build_markov_one, foldl_transIncr_count]
    simp [alGetD, alGet?]
  · intro arr2 h
    match arr2, h with
    | [], _ => rfl
    | [x], _ => rfl
    | x :: y :: t, h => simp at h; omega

/-- Witness for C5 at a concrete short sequence. -/
theorem markov_table_construction_witness :
    build_markov_one [((5 : ℤ), (0 : ℤ))] = [] :=
  (markov_table_construction [] 0 0).2.1 [(5, 0)] (by decide)

/-- **C9** (first onset consults no Markov data).  `None` is never a key of
any built transition table, so the table conditioned on a missing
`last_note` is empty and `choose_note` falls through to the fallback pool
(uniform draw) or to the fixed pitch 60. -/
theorem first_onset_fallback (seqs : List (ℕ × List (ℤ × ℤ))) (ch : ℕ)
    (pool : List ℤ) (pen g : ℕ → ℚ) (i : ℕ) :
    alGetD (alGetD (build_markov_models seqs) ch []) (none : Option ℤ) [] = [] ∧
    (pool = [] →
      choose_note (alGetD (alGetD (build_markov_models seqs) ch []) none [])
        none pool pen g i = (60, i)) ∧
    (∀ f fs, pool = f :: fs →
      choose_note (alGetD (alGetD (build_markov_models seqs) ch []) none [])
          none pool pen g i = (rand_choice (f :: fs) (g i), i + 1) ∧
      (0 ≤ g i → g i < 1 →
        rand_choice (f :: fs) (g i) ∈ pool)) := by
  have hcond :
      alGetD (alGetD (build_markov_models seqs) ch []) (none : Option ℤ) [] = [] := by
    cases halg : alGet? seqs ch with
    | none =>
      have hmod : alGetD (build_markov_models seqs) ch [] = [] := by
        rw [alGetD, alGet?_build_markov_models, halg]; rfl
      rw [hmod]; rfl
    | some arr =>
      have hmod : alGetD (build_markov_models seqs) ch [] = build_markov_one arr := by
        rw [alGetD, alGet?_build_markov_models, halg]; rfl
      rw [hmod, alGetD, alGet?_build_markov_one_none]; rfl
  refine ⟨hcond, ?_, ?_⟩
  · intro hpool
    rw [hcond, hpool]
    simp [choose_note]
  · intro f fs hpool
    rw [hcond, hpool]
    exact ⟨by simp [choose_note],
      fun h0 h1 => rand_choice_mem (f :: fs) (g i) (List.cons_ne_nil f fs) h0 h1⟩

/-- Witness for C9 at concrete inputs. -/
theorem first_onset_fallback_witness :
    choose_note
      (alGetD (alGetD (build_markov_models [(0, [(60, 1), (62, 1)])]) 0 [])
        (none : Option ℤ) [])
      none [] (fun _ => 0) (fun _ => 0) 5 = (60, 5) :=
  (first_onset_fallback [(0, [(60, 1), (62, 1)])] 0 [] (fun _ => 0)
    (fun _ => 0) 5).2.1 rfl

/-! ## Lemmas about the generation loop -/

theorem busyCount_cons (p : ℕ × ℕ) (au : List (ℕ × ℕ)) (t : ℕ) :
    busyCount (p :: au) t = (if t < p.2 then 1 else 0) + busyCount au t := by
  by_cases h : t < p.2 <;> simp [busyCount, List.filter_cons, h, Nat.add_comm]

theorem busyCount_mono (au : List (ℕ × ℕ)) {t t' : ℕ} (h : t ≤ t') :
    busyCount au t' ≤ busyCount au t := by
  induction au with
  | nil => simp [busyCount]
  | cons p au ih =>
    rw [busyCount_cons, busyCount_cons]
    have : (if t' < p.2 then 1 else 0) ≤ (if t < p.2 then 1 else 0) := by
      by_cases h2 : t' < p.2
      · simp [h2, lt_of_le_of_lt h h2]
      · simp [h2]
    omega

theorem busyCount_alSet (au : List (ℕ × ℕ)) (k : ℕ) (v : ℕ) (t : ℕ) :
    busyCount (alSet au k v) t ≤ busyCount au t + 1 := by
  induction au with
  | nil =>
    rw [show alSet ([] : List (ℕ × ℕ)) k v = [(k, v)] from rfl, busyCount_cons]
    have h1 : (if t < ((k, v) : ℕ × ℕ).2 then 1 else 0) ≤ 1 := by split <;> omega
    have h2 : busyCount [] t = 0 := rfl
    omega
  | cons p au ih =>
    obtain ⟨a, w⟩ := p
    by_cases hak : a = k
    · rw [show alSet ((a, w) :: au) k v = (k, v) :: au by simp [alSet, hak],
        busyCount_cons, busyCount_cons]
      have h1 : (if t < ((k, v) : ℕ × ℕ).2 then 1 else 0) ≤ 1 := by split <;> omega
      omega
    · rw [show alSet ((a, w) :: au) k v = (a, w) :: alSet au k v by
          simp [alSet, hak],
        busyCount_cons, busyCount_cons]
      omega

theorem choices12_mem (u : ℚ) : choices12 u = 1 ∨ choices12 u = 2 := by
  unfold choices12; split <;> simp

theorem choices124_mem (u : ℚ) :
    choices124 u = 1 ∨ choices124 u = 2 ∨ choices124 u = 4 := by
  unfold choices124; split
  · simp
  · split <;> simp

/-- Case analysis of one step of the generation loop: either the state's
events, `active_until` and `last_note` are unchanged (idle channel at the
ceiling, busy channel, or failed onset draw), or the round-robin channel was
idle, the pre-onset busy count was below the ceiling, and exactly one
note-on/note-off pair was appended for that channel with a duration of 1, 2
or 4 grid steps (1 or 2 when the onset saturates the ceiling), with the
channel marked busy until the note-off tick. -/
theorem generate_step_cases (models : List (ℕ × Trans)) (fallback_notes : ℕ → List ℤ)
    (channels : List ℕ) (pen g : ℕ → ℚ) (st : GenState) (n : ℕ) :
    ((generate_step models fallback_notes channels pen g st n).events = st.events ∧
     (generate_step models fallback_notes channels pen g st n).active_until
        = st.active_until ∧
     (generate_step models fallback_notes channels pen g st n).last_note
        = st.last_note) ∨
    (¬ n * GRID < alGetD st.active_until (channels.getD (n % channels.length) 0) 0 ∧
     busyCount st.active_until (n * GRID) < MAX_GLOBAL_POLY ∧
     ∃ d note,
       (d = 1 ∨ d = 2 ∨ d = 4) ∧
       (MAX_GLOBAL_POLY - 1 ≤ busyCount st.active_until (n * GRID) →
          d = 1 ∨ d = 2) ∧
       (generate_step models fallback_notes channels pen g st n).events
         = st.events ++
           [⟨n * GRID, channels.getD (n % channels.length) 0, true, note, 96⟩,
            ⟨n * GRID + d * GRID, channels.getD (n % channels.length) 0,
              false, note, 0⟩] ∧
       (generate_step models fallback_notes channels pen g st n).active_until
         = alSet st.active_until (channels.getD (n % channels.length) 0)
             (n * GRID + d * GRID) ∧
       (generate_step models fallback_notes channels pen g st n).last_note
         = alSet st.last_note (channels.getD (n % channels.length) 0) note) := by
  by_cases hbusy : n * GRID <
      alGetD st.active_until (channels.getD (n % channels.length) 0) 0
  · left
    simp only [generate_step]
    rw [if_pos (Or.inl hbusy)]
    exact ⟨rfl, rfl, rfl⟩
  · by_cases hga : busyCount st.active_until (n * GRID) < MAX_GLOBAL_POLY
    · have hcond : ¬ (n * GRID <
          alGetD st.active_until (channels.getD (n % channels.length) 0) 0 ∨
          ¬ busyCount st.active_until (n * GRID) < MAX_GLOBAL_POLY) :=
        not_or.mpr ⟨hbusy, not_not_intro hga⟩
      by_cases hr : g st.rng < ONSET_PROB
      · right
        refine ⟨hbusy, hga, ?_⟩
        refine ⟨(if MAX_GLOBAL_POLY - 1 ≤ busyCount st.active_until (n * GRID)
            then choices12 (g (st.rng + 1)) else choices124 (g (st.rng + 1))),
          (choose_note
            (alGetD (alGetD models (channels.getD (n % channels.length) 0) [])
              (alGet? st.last_note (channels.getD (n % channels.length) 0)) [])
            (alGet? st.last_note (channels.getD (n % channels.length) 0))
            (fallback_notes (channels.getD (n % channels.length) 0))
            pen g (st.rng + 1 + 1)).1,
          ?_, ?_, ?_, ?_, ?_⟩
        · split
          · rcases choices12_mem (g (st.rng + 1)) with h | h <;> simp [h]
          · exact choices124_mem (g (st.rng + 1))
        · intro hceil
          rw [if_pos hceil]
          exact choices12_mem (g (st.rng + 1))
        · simp only [generate_step]
          rw [if_neg hcond, if_neg (not_not_intro hr)]
        · simp only [generate_step]
          rw [if_neg hcond, if_neg (not_not_intro hr)]
        · simp only [generate_step]
          rw [if_neg hcond, if_neg (not_not_intro hr)]
      · left
        simp only [generate_step]
        rw [if_neg hcond, if_pos hr]
        exact ⟨rfl, rfl, rfl⟩
    · left
      simp only [generate_step]
      rw [if_pos (Or.inr hga)]
      exact ⟨rfl, rfl, rfl⟩

/-- **C1** (global polyphony ceiling).  After any number of loop steps, at
the just-processed step's tick and at every later tick, the busy count of
`active_until` (the code's `global_active` measure) is at most
`MAX_GLOBAL_POLY`; and a step that emits an onset had a pre-onset busy
count strictly below `MAX_GLOBAL_POLY`. -/
theorem global_polyphony_ceiling (models : List (ℕ × Trans))
    (fallback_notes : ℕ → List ℤ) (channels : List ℕ) (pen g : ℕ → ℚ)
    (n t : ℕ) (h : n * GRID ≤ t) :
    busyCount
        (generate_run models fallback_notes channels pen g (n + 1)).active_until t
      ≤ MAX_GLOBAL_POLY ∧
    ((generate_run models fallback_notes channels pen g (n + 1)).events
        ≠ (generate_run models fallback_notes channels pen g n).events →
      busyCount
          (generate_run models fallback_notes channels pen g n).active_until
          (n * GRID)
        < MAX_GLOBAL_POLY) := by
  constructor
  · induction n generalizing t with
    | zero =>
      rcases generate_step_cases models fallback_notes channels pen g
          (generate_run models fallback_notes channels pen g 0) 0 with
        ⟨_, hau, _⟩ | ⟨_, _, d, note, _, _, _, hau, _⟩
      · rw [show generate_run models fallback_notes channels pen g 1
            = generate_step models fallback_notes channels pen g
                (generate_run models fallback_notes channels pen g 0) 0 from rfl,
          hau]
        have hz : busyCount
            (generate_run models fallback_notes channels pen g 0).active_until t
            = 0 := rfl
        rw [hz]
        exact Nat.zero_le _
      · rw [show generate_run models fallback_notes channels pen g 1
            = generate_step models fallback_notes channels pen g
                (generate_run models fallback_notes channels pen g 0) 0 from rfl,
          hau]
        have h1 := busyCount_alSet
          (generate_run models fallback_notes channels pen g 0).active_until
          (channels.getD (0 % channels.length) 0) (0 * GRID + d * GRID) t
        have hz : busyCount
            (generate_run models fallback_notes channels pen g 0).active_until t
            = 0 := rfl
        have h5 : MAX_GLOBAL_POLY = 5 := rfl
        omega
    | succ m ih =>
      rcases generate_step_cases models fallback_notes channels pen g
          (generate_run models fallback_notes channels pen g (m + 1)) (m + 1) with
        ⟨_, hau, _⟩ | ⟨_, hga, d, note, _, _, _, hau, _⟩
      · rw [show generate_run models fallback_notes channels pen g (m + 1 + 1)
            = generate_step models fallback_notes channels pen g
                (generate_run models fallback_notes channels pen g (m + 1)) (m + 1)
            from rfl, hau]
        exact ih t (le_trans (Nat.mul_le_mul_right GRID (Nat.le_succ m)) h)
      · rw [show generate_run models fallback_notes channels pen g (m + 1 + 1)
            = generate_step models fallback_notes channels pen g
                (generate_run models fallback_notes channels pen g (m + 1)) (m + 1)
            from rfl, hau]
        have h1 := busyCount_alSet
          (generate_run models fallback_notes channels pen g (m + 1)).active_until
          (channels.getD ((m + 1) % channels.length) 0) ((m + 1) * GRID + d * GRID) t
        have h2 := busyCount_mono
          (generate_run models fallback_notes channels pen g (m + 1)).active_until h
        omega
  · intro hne
    rcases generate_step_cases models fallback_notes channels pen g
        (generate_run models fallback_notes channels pen g n) n with
      ⟨hev, _, _⟩ | ⟨_, hga, _⟩
    · exact absurd hev hne
    · exact hga

/-- Witness for C1 at concrete inputs (one step, one channel, zero draws). -/
theorem global_polyphony_ceiling_witness :
    busyCount
        (generate_run [] (fun _ => []) [0] (fun _ => 0) (fun _ => 0) 1).active_until 0
      ≤ MAX_GLOBAL_POLY ∧
    busyCount
        (generate_run [] (fun _ => []) [0] (fun _ => 0) (fun _ => 0) 0).active_until 0
      < MAX_GLOBAL_POLY := by
  have h := global_polyphony_ceiling [] (fun _ => []) [0]
    (fun _ => 0) (fun _ => 0) 0 0 (by decide)
  exact ⟨h.1, h.2 (by decide)⟩

/-- **C7** (generated note pairs are well-formed).  Each loop step either
emits nothing, or appends exactly one `note_on` at the current tick together
with its `note_off` at `tick + d * GRID`, where `d ∈ {1, 2, 4}` in general
and `d ∈ {1, 2}` when the onset reaches the polyphony ceiling; the end tick
is strictly greater than the start tick, and the channel is marked busy
until exactly that end tick. -/
theorem generated_pairs_wellformed (models : List (ℕ × Trans))
    (fallback_notes : ℕ → List ℤ) (channels : List ℕ) (pen g : ℕ → ℚ) (n : ℕ) :
    (generate_run models fallback_notes channels pen g (n + 1)).events
      = (generate_run models fallback_notes channels pen g n).events ∨
    ∃ d note,
      (d = 1 ∨ d = 2 ∨ d = 4) ∧
      (MAX_GLOBAL_POLY - 1 ≤ busyCount
          (generate_run models fallback_notes channels pen g n).active_until
          (n * GRID) →
        d = 1 ∨ d = 2) ∧
      (generate_run models fallback_notes channels pen g (n + 1)).events
        = (generate_run models fallback_notes channels pen g n).events ++
          [⟨n * GRID, channels.getD (n % channels.length) 0, true, note, 96⟩,
           ⟨n * GRID + d * GRID, channels.getD (n % channels.length) 0,
             false, note, 0⟩] ∧
      n * GRID < n * GRID + d * GRID ∧
      alGetD
          (generate_run models fallback_notes channels pen g (n + 1)).active_until
          (channels.getD (n % channels.length) 0) 0
        = n * GRID + d * GRID := by
  rcases generate_step_cases models fallback_notes channels pen g
      (generate_run models fallback_notes channels pen g n) n with
    ⟨hev, _, _⟩ | ⟨_, _, d, note, hd, hceil, hev, hau, _⟩
  · exact Or.inl hev
  · right
    refine ⟨d, note, hd, hceil, hev, ?_, ?_⟩
    · have hdpos : 0 < d := by rcases hd with h | h | h <;> omega
      have hG : 0 < GRID := by decide
      exact Nat.lt_add_of_pos_right (Nat.mul_pos hdpos hG)
    · rw [show (generate_run models fallback_notes channels pen g (n + 1))
          = generate_step models fallback_notes channels pen g
              (generate_run models fallback_notes channels pen g n) n from rfl,
        hau, alGetD_alSet, if_pos rfl]

/-- Witness for C7 at concrete inputs. -/
theorem generated_pairs_wellformed_witness :
    (generate_run [] (fun _ => []) [0] (fun _ => 0) (fun _ => 0) 1).events
      = (generate_run [] (fun _ => []) [0] (fun _ => 0) (fun _ => 0) 0).events ∨
    ∃ d note,
      (d = 1 ∨ d = 2 ∨ d = 4) ∧
      (MAX_GLOBAL_POLY - 1 ≤ busyCount
          (generate_run [] (fun _ => []) [0] (fun _ => 0)
            (fun _ => 0) 0).active_until (0 * GRID) →
        d = 1 ∨ d = 2) ∧
      (generate_run [] (fun _ => []) [0] (fun _ => 0) (fun _ => 0) 1).events
        = (generate_run [] (fun _ => []) [0] (fun _ => 0) (fun _ => 0) 0).events ++
          [⟨0 * GRID, [0].getD (0 % [0].length) 0, true, note, 96⟩,
           ⟨0 * GRID + d * GRID, [0].getD (0 % [0].length) 0, false, note, 0⟩] ∧
      0 * GRID < 0 * GRID + d * GRID ∧
      alGetD
          (generate_run [] (fun _ => []) [0] (fun _ => 0)
            (fun _ => 0) 1).active_until ([0].getD (0 % [0].length) 0) 0
        = 0 * GRID + d * GRID :=
  generated_pairs_wellformed [] (fun _ => []) [0] (fun _ => 0) (fun _ => 0) 0

/-! ## The per-channel non-overlap invariant -/

theorem notePairs_append_pair (x y : GEv) :
    ∀ (evs : List GEv), evs.length % 2 = 0 →
      notePairs (evs ++ [x, y]) = notePairs evs ++ [(x.channel, x.tick, y.tick)]
  | [], _ => rfl
  | [a], h => by simp at h
  | a :: b :: rest, h => by
    have hr : rest.length % 2 = 0 := by
      simp [List.length_cons] at h
      omega
    show (a.channel, a.tick, b.tick) :: notePairs (rest ++ [x, y])
        = (a.channel, a.tick, b.tick) :: (notePairs rest ++ [(x.channel, x.tick, y.tick)])
    rw [notePairs_append_pair x y rest hr]

/-- The generation-run invariant used for the round-robin claim: the event
list always holds complete pairs; every generated span ends no later than
its channel's `busy until` entry and is non-degenerate; and the spans of any
one channel are pairwise non-overlapping in emission order. -/
theorem run_pairs_invariant (models : List (ℕ × Trans))
    (fallback_notes : ℕ → List ℤ) (channels : List ℕ) (pen g : ℕ → ℚ) :
    ∀ n : ℕ,
      (generate_run models fallback_notes channels pen g n).events.length % 2 = 0 ∧
      (∀ p ∈ notePairs
          (generate_run models fallback_notes channels pen g n).events,
        p.2.1 < p.2.2 ∧
        p.2.2 ≤ alGetD
          (generate_run models fallback_notes channels pen g n).active_until
          p.1 0) ∧
      (∀ ch : ℕ, ((notePairs
          (generate_run models fallback_notes channels pen g n).events).filter
            (fun p => p.1 = ch)).Pairwise (fun p q => p.2.2 ≤ q.2.1)) := by
  intro n
  induction n with
  | zero =>
    refine ⟨rfl, ?_, ?_⟩
    · intro p hp
      simp [generate_run, notePairs] at hp
    · intro ch
      simp [generate_run, notePairs]
  | succ m ih =>
    obtain ⟨ihpar, ihmem, ihpw⟩ := ih
    rcases generate_step_cases models fallback_notes channels pen g
        (generate_run models fallback_notes channels pen g m) m with
      ⟨hev, hau, _⟩ | ⟨hbusy, _, d, note, hd, _, hev, hau, _⟩
    · rw [show (generate_run models fallback_notes channels pen g (m + 1))
          = generate_step models fallback_notes channels pen g
              (generate_run models fallback_notes channels pen g m) m from rfl] at *
      rw [hev, hau]
      exact ⟨ihpar, ihmem, ihpw⟩
    · rw [show (generate_run models fallback_notes channels pen g (m + 1))
          = generate_step models fallback_notes channels pen g
              (generate_run models fallback_notes channels pen g m) m from rfl] at *
      rw [hev, hau]
      have hpairs : notePairs
          ((generate_run models fallback_notes channels pen g m).events ++
            [⟨m * GRID, channels.getD (m % channels.length) 0, true, note, 96⟩,
             ⟨m * GRID + d * GRID, channels.getD (m % channels.length) 0,
               false, note, 0⟩])
          = notePairs (generate_run models fallback_notes channels pen g m).events ++
            [(channels.getD (m % channels.length) 0,
              m * GRID, m * GRID + d * GRID)] :=
        notePairs_append_pair
          ⟨m * GRID, channels.getD (m % channels.length) 0, true, note, 96⟩
          ⟨m * GRID + d * GRID, channels.getD (m % channels.length) 0, false, note, 0⟩
          (generate_run models fallback_notes channels pen g m).events ihpar
      have hchle : alGetD
          (generate_run models fallback_notes channels pen g m).active_until
          (channels.getD (m % channels.length) 0) 0 ≤ m * GRID :=
        Nat.le_of_not_lt hbusy
      have hdpos : 0 < d * GRID := by
        have : 0 < d := by rcases hd with h | h | h <;> omega
        exact Nat.mul_pos this (by decide)
      refine ⟨?_, ?_, ?_⟩
      · simp [List.length_append, Nat.add_mul_mod_self_left, ihpar]
      · intro p hp
        rw [hpairs] at hp
        rcases List.mem_append.mp hp with hold | hnew
        · obtain ⟨hlt, hle⟩ := ihmem p hold
          refine ⟨hlt, ?_⟩
          rw [alGetD_alSet]
          by_cases hpc : channels.getD (m % channels.length) 0 = p.1
          · rw [if_pos hpc]
            rw [← hpc] at hle
            omega
          · rw [if_neg hpc]
            exact hle
        · have hpeq : p = (channels.getD (m % channels.length) 0,
              m * GRID, m * GRID + d * GRID) := by
            simpa using hnew
          subst hpeq
          constructor
          · show m * GRID < m * GRID + d * GRID
            omega
          · simp [alGetD_alSet]
      · intro ch
        rw [hpairs, List.filter_append]
        by_cases hch : channels.getD (m % channels.length) 0 = ch
        · have hsing : ([((channels.getD (m % channels.length) 0 : ℕ),
              ((m * GRID : ℕ), (m * GRID + d * GRID : ℕ)))].filter
                (fun p => p.1 = ch))
              = [(channels.getD (m % channels.length) 0,
                  m * GRID, m * GRID + d * GRID)] := by
            rw [List.filter_cons, if_pos (decide_eq_true hch)]
            rfl
          rw [hsing]
          rw [List.pairwise_append]
          refine ⟨ihpw ch, List.pairwise_singleton _ _, ?_⟩
          intro p hp q hq
          have hq' : q = (channels.getD (m % channels.length) 0,
              m * GRID, m * GRID + d * GRID) := by simpa using hq
          subst hq'
          have hpmem := List.mem_filter.mp hp
          have hpch : p.1 = ch := by simpa using hpmem.2
          have := (ihmem p hpmem.1).2
          rw [hpch, ← hch] at this
          exact le_trans this hchle
        · have hsing : ([((channels.getD (m % channels.length) 0 : ℕ),
              ((m * GRID : ℕ), (m * GRID + d * GRID : ℕ)))].filter
                (fun p => p.1 = ch))
              = [] := by
            rw [List.filter_cons,
              if_neg (fun hcontra => hch (of_decide_eq_true hcontra))]
            rfl
          rw [hsing, List.append_nil]
          exact ihpw ch

/-- **C3** (round-robin onset discipline).  At each step only the round-robin
voice `channels[step % len(channels)]` can emit events; a step whose
round-robin voice is busy (busy-until strictly greater than the current
tick) changes nothing at all; and in any run the spans of one channel never
overlap: each pair's end tick is at most the next pair's start tick, and
every span is non-degenerate. -/
theorem round_robin_discipline (models : List (ℕ × Trans))
    (fallback_notes : ℕ → List ℤ) (channels : List ℕ) (pen g : ℕ → ℚ) (n : ℕ) :
    ((generate_run models fallback_notes channels pen g (n + 1)).events
        = (generate_run models fallback_notes channels pen g n).events ∨
      ∃ d note,
        (generate_run models fallback_notes channels pen g (n + 1)).events
          = (generate_run models fallback_notes channels pen g n).events ++
            [⟨n * GRID, channels.getD (n % channels.length) 0, true, note, 96⟩,
             ⟨n * GRID + d * GRID, channels.getD (n % channels.length) 0,
               false, note, 0⟩]) ∧
    (n * GRID < alGetD
        (generate_run models fallback_notes channels pen g n).active_until
        (channels.getD (n % channels.length) 0) 0 →
      generate_run models fallback_notes channels pen g (n + 1)
        = generate_run models fallback_notes channels pen g n) ∧
    (∀ ch : ℕ, ((notePairs
        (generate_run models fallback_notes channels pen g n).events).filter
          (fun p => p.1 = ch)).Pairwise (fun p q => p.2.2 ≤ q.2.1)) ∧
    (∀ p ∈ notePairs
        (generate_run models fallback_notes channels pen g n).events,
      p.2.1 < p.2.2) := by
  refine ⟨?_, ?_, ?_, ?_⟩
  · rcases generate_step_cases models fallback_notes channels pen g
        (generate_run models fallback_notes channels pen g n) n with
      ⟨hev, _, _⟩ | ⟨_, _, d, note, _, _, hev, _, _⟩
    · exact Or.inl hev
    · exact Or.inr ⟨d, note, hev⟩
  · intro hbusy
    rw [show (generate_run models fallback_notes channels pen g (n + 1))
        = generate_step models fallback_notes channels pen g
            (generate_run models fallback_notes channels pen g n) n from rfl]
    simp only [generate_step]
    rw [if_pos (Or.inl hbusy)]
  · exact (run_pairs_invariant models fallback_notes channels pen g n).2.2
  · intro p hp
    exact ((run_pairs_invariant models fallback_notes channels pen g n).2.1 p hp).1

/-- Witness for C3: a concrete run in which the round-robin channel is busy
at step 1 (a four-step note was emitted at step 0), so step 1 is a no-op. -/
theorem round_robin_discipline_witness :
    generate_run [] (fun _ => []) [0] (fun _ => 0)
        (fun i => if i = 1 then mkRat 95 100 else 0) 2
      = generate_run [] (fun _ => []) [0] (fun _ => 0)
          (fun i => if i = 1 then mkRat 95 100 else 0) 1 :=
  (round_robin_discipline [] (fun _ => []) [0] (fun _ => 0)
    (fun i => if i = 1 then mkRat 95 100 else 0) 1).2.1 (by decide)

/-! ## Lemmas about the Sequence Extractor -/

theorem alGet?_mem {κ ν : Type} [DecidableEq κ] {m : List (κ × ν)} {k : κ} {v : ν}
    (h : alGet? m k = some v) : (k, v) ∈ m := by
  induction m with
  | nil => simp [alGet?] at h
  | cons p m ih =>
    obtain ⟨a, w⟩ := p
    by_cases hak : a = k
    · subst hak
      rw [alGet?, if_pos rfl] at h
      have : w = v := by injection h
      subst this
      exact List.mem_cons_self _ _
    · rw [alGet?, if_neg hak] at h
      exact List.mem_cons_of_mem _ (ih h)

theorem seqAppend_dur (Q : ℤ → Prop) (s : List (ℕ × List (ℤ × ℤ))) (ch : ℕ)
    (p : ℤ × ℤ)
    (hs : ∀ ch2 arr, (ch2, arr) ∈ s → ∀ q ∈ arr, Q q.2) (hp : Q p.2) :
    ∀ ch2 arr, (ch2, arr) ∈ seqAppend s ch p → ∀ q ∈ arr, Q q.2 := by
  intro ch2 arr hmem q hq
  rcases mem_alSet hmem with hnew | hold
  · have harr : arr = alGetD s ch [] ++ [p] := by
      injection hnew with h1 h2
    subst harr
    rcases List.mem_append.mp hq with hq1 | hq2
    · cases halg : alGet? s ch with
      | none =>
        rw [alGetD, halg] at hq1
        simp at hq1
      | some arr0 =>
        rw [alGetD, halg] at hq1
        exact hs ch arr0 (alGet?_mem halg) q hq1
    · have : q = p := by simpa using hq2
      subst this
      exact hp
  · exact hs ch2 arr hold q hq

theorem process_event_dur (Q : ℤ → Prop) (tpb : ℕ)
    (hQpos : ∀ z : ℤ, 0 < z → Q z) (hQ4 : Q ((tpb / 4 : ℕ) : ℤ))
    (a : ExtractAcc) (active : List ((ℕ × ℤ) × ℕ)) (ev : ℕ × MMsg)
    (hs : ∀ ch arr, (ch, arr) ∈ a.seqs → ∀ q ∈ arr, Q q.2) :
    ∀ ch arr, (ch, arr) ∈ (process_event tpb (a, active) ev).1.seqs →
      ∀ q ∈ arr, Q q.2 := by
  obtain ⟨t, msg⟩ := ev
  cases msg with
  | set_tempo tp => simpa [process_event] using hs
  | program_change ch2 pr => simpa [process_event] using hs
  | other => simpa [process_event] using hs
  | note_on ch2 nt v =>
    by_cases hv : 0 < v
    · simpa [process_event, hv] using hs
    · cases halg : alGet? active (ch2, nt) with
      | none => simpa [process_event, hv, halg] using hs
      | some start =>
        have hred : (process_event tpb (a, active) (t, MMsg.note_on ch2 nt v)).1.seqs
            = seqAppend a.seqs ch2
                (nt, if (t : ℤ) - (start : ℤ) ≤ 0 then ((tpb / 4 : ℕ) : ℤ)
                  else (t : ℤ) - (start : ℤ)) := by
          simp [process_event, hv, halg]
        rw [hred]
        apply seqAppend_dur Q a.seqs ch2 _ hs
        by_cases hdur : (t : ℤ) - (start : ℤ) ≤ 0
        · simpa [hdur] using hQ4
        · have : (0 : ℤ) < (t : ℤ) - (start : ℤ) := by omega
          simpa [hdur] using hQpos _ this
  | note_off ch2 nt =>
    cases halg : alGet? active (ch2, nt) with
    | none => simpa [process_event, halg] using hs
    | some start =>
      have hred : (process_event tpb (a, active) (t, MMsg.note_off ch2 nt)).1.seqs
          = seqAppend a.seqs ch2
              (nt, if (t : ℤ) - (start : ℤ) ≤ 0 then ((tpb / 4 : ℕ) : ℤ)
                else (t : ℤ) - (start : ℤ)) := by
        simp [process_event, halg]
      rw [hred]
      apply seqAppend_dur Q a.seqs ch2 _ hs
      by_cases hdur : (t : ℤ) - (start : ℤ) ≤ 0
      · simpa [hdur] using hQ4
      · have : (0 : ℤ) < (t : ℤ) - (start : ℤ) := by omega
        simpa [hdur] using hQpos _ this

theorem foldl_process_event_dur (Q : ℤ → Prop) (tpb : ℕ)
    (hQpos : ∀ z : ℤ, 0 < z → Q z) (hQ4 : Q ((tpb / 4 : ℕ) : ℤ)) :
    ∀ (evs : List (ℕ × MMsg)) (st : ExtractAcc × List ((ℕ × ℤ) × ℕ)),
      (∀ ch arr, (ch, arr) ∈ st.1.seqs → ∀ q ∈ arr, Q q.2) →
      ∀ ch arr, (ch, arr) ∈ (evs.foldl (process_event tpb) st).1.seqs →
        ∀ q ∈ arr, Q q.2 := by
  intro evs
  induction evs with
  | nil => intro st hs; exact hs
  | cons e evs ih =>
    intro st hs
    rw [List.foldl_cons]
    exact ih (process_event tpb st e) (process_event_dur Q tpb hQpos hQ4 st.1 st.2 e hs)

theorem foldl_process_file_dur (Q : ℤ → Prop) (R : ℕ → Prop)
    (hQpos : ∀ z : ℤ, 0 < z → Q z)
    (hR4 : ∀ tpb : ℕ, R tpb → Q ((tpb / 4 : ℕ) : ℤ)) :
    ∀ (mids : List MidiFile) (st : ExtractAcc × ℕ),
      (∀ f ∈ mids, ∀ tpb : ℕ, R tpb →
        R (if f.ticks_per_beat ≠ 0 then f.ticks_per_beat else tpb)) →
      R st.2 →
      (∀ ch arr, (ch, arr) ∈ st.1.seqs → ∀ q ∈ arr, Q q.2) →
      ∀ ch arr, (ch, arr) ∈ (mids.foldl process_file st).1.seqs →
        ∀ q ∈ arr, Q q.2 := by
  intro mids
  induction mids with
  | nil => intro st _ _ hs; exact hs
  | cons f mids ih =>
    intro st hmids hR hs
    rw [List.foldl_cons]
    have hR' : R (if f.ticks_per_beat ≠ 0 then f.ticks_per_beat else st.2) :=
      hmids f (List.mem_cons_self _ _) st.2 hR
    apply ih (process_file st f)
      (fun f2 hf2 => hmids f2 (List.mem_cons_of_mem _ hf2))
      hR'
    exact foldl_process_event_dur Q _ hQpos (hR4 _ hR') (fileEvents f) (st.1, [])
      hs

/-- **C6, amended** (duration fallback).  Every recorded duration is
non-negative; when a matched end event has measured duration `≤ 0` the
recorded duration is exactly `ticks_per_beat // 4` for the ticks-per-beat
current at that point; and every recorded duration is strictly positive
provided each file's nonzero ticks-per-beat is at least 4 (for
`ticks_per_beat < 4` the fallback `ticks_per_beat // 4` is 0, refuting the
unrestricted claim). -/
theorem duration_fallback (mids : List MidiFile) :
    (∀ ch arr, (ch, arr) ∈ (extract_sequences mids).1 →
      ∀ p ∈ arr, (0 : ℤ) ≤ p.2) ∧
    ((∀ f ∈ mids, f.ticks_per_beat = 0 ∨ 4 ≤ f.ticks_per_beat) →
      ∀ ch arr, (ch, arr) ∈ (extract_sequences mids).1 →
        ∀ p ∈ arr, (0 : ℤ) < p.2) ∧
    (∀ (tpb : ℕ) (a : ExtractAcc) (active : List ((ℕ × ℤ) × ℕ)) (t : ℕ)
        (ch : ℕ) (nt : ℤ) (start : ℕ),
      alGet? active (ch, nt) = some start → (t : ℤ) - (start : ℤ) ≤ 0 →
      (process_event tpb (a, active) (t, MMsg.note_off ch nt)).1.seqs
        = seqAppend a.seqs ch (nt, ((tpb / 4 : ℕ) : ℤ))) := by
  refine ⟨?_, ?_, ?_⟩
  · intro ch arr hmem p hp
    refine foldl_process_file_dur (fun z => 0 ≤ z) (fun _ => True)
      (fun z hz => le_of_lt hz) (fun tpb _ => Int.ofNat_nonneg _)
      mids (⟨[], [], 500000⟩, 480) (fun _ _ _ _ => trivial) trivial
      ?_ ch arr hmem p hp
    intro ch2 arr2 hmem2
    simp at hmem2
  · intro h ch arr hmem p hp
    refine foldl_process_file_dur (fun z => 0 < z) (fun tpb => 4 ≤ tpb)
      (fun z hz => hz) ?_
      mids (⟨[], [], 500000⟩, 480) ?_ (by omega)
      ?_ ch arr hmem p hp
    · intro tpb htpb
      have h1 : 1 ≤ tpb / 4 := (Nat.one_le_div_iff (by omega)).mpr htpb
      exact_mod_cast Nat.lt_of_lt_of_le Nat.zero_lt_one h1
    · intro f hf tpb htpb
      by_cases hz : f.ticks_per_beat ≠ 0
      · rw [if_pos hz]
        rcases h f hf with h0 | h4
        · exact absurd h0 hz
        · exact h4
      · rw [if_neg hz]
        exact htpb
    · intro ch2 arr2 hmem2
      simp at hmem2
  · intro tpb a active t ch nt start halg hdur
    simp [process_event, halg, hdur]

/-- Counterexample to C6 as stated: a file with `ticks_per_beat = 1`
(positive) and a same-tick note-on/note-off pair records the duration
`1 // 4 = 0`, which is zero. -/
theorem duration_fallback_counterexample :
    (extract_sequences
        [⟨1, [[⟨0, MMsg.note_on 0 60 1⟩, ⟨0, MMsg.note_off 0 60⟩]]⟩]).1
      = [(0, [(60, 0)])] ∧
    (extract_sequences
        [⟨1, [[⟨0, MMsg.note_on 0 60 1⟩, ⟨0, MMsg.note_off 0 60⟩]]⟩]).2.2.1
      = 1 := by
  constructor <;> rfl

/-- Witness for the amended C6 at a concrete file with `ticks_per_beat = 4`:
the same degenerate pair is recorded with the positive fallback `4 // 4 = 1`. -/
theorem duration_fallback_witness :
    (0 : ℤ) <
      ((60, 1) : ℤ × ℤ).2 ∧
    (process_event 4 (⟨[], [], 500000⟩, [((0, 60), 0)]) (0, MMsg.note_off 0 60)).1.seqs
      = seqAppend (⟨[], [], 500000⟩ : ExtractAcc).seqs 0 (60, ((4 / 4 : ℕ) : ℤ)) := by
  constructor
  · exact (duration_fallback
      [⟨4, [[⟨0, MMsg.note_on 0 60 1⟩, ⟨0, MMsg.note_off 0 60⟩]]⟩]).2.1
      (by intro f hf; right; simp at hf; rw [hf]) 0 [(60, 1)]
      (by decide) (60, 1) (by decide)
  · exact (duration_fallback []).2.2 4 ⟨[], [], 500000⟩ [((0, 60), 0)] 0 0 60 0
      (by decide) (by decide)

theorem getLast?_getD_cons (l : List ℕ) :
    ∀ x d : ℕ, ((x :: l).getLast?).getD d = (l.getLast?).getD x := by
  induction l with
  | nil => intro x d; rfl
  | cons y l ih =>
    intro x d
    rw [show (x :: y :: l).getLast? = (y :: l).getLast? from rfl, ih y d, ih y x]

theorem extract_tpb_foldl (mids : List MidiFile) :
    ∀ st : ExtractAcc × ℕ,
      (mids.foldl process_file st).2
        = ((mids.filterMap (fun f => if f.ticks_per_beat ≠ 0
              then some f.ticks_per_beat else none)).getLast?).getD st.2 := by
  induction mids with
  | nil => intro st; rfl
  | cons f mids ih =>
    intro st
    rw [List.foldl_cons, ih]
    have hpf : (process_file st f).2
        = (if f.ticks_per_beat ≠ 0 then f.ticks_per_beat else st.2) := rfl
    rw [hpf]
    by_cases hz : f.ticks_per_beat ≠ 0
    · rw [if_pos hz]
      have hfm : ((f :: mids).filterMap (fun f2 => if f2.ticks_per_beat ≠ 0
            then some f2.ticks_per_beat else none))
          = f.ticks_per_beat :: (mids.filterMap (fun f2 => if f2.ticks_per_beat ≠ 0
              then some f2.ticks_per_beat else none)) := by
        rw [List.filterMap_cons, if_pos hz]
      rw [hfm, getLast?_getD_cons]
    · rw [if_neg hz]
      have hfm : ((f :: mids).filterMap (fun f2 => if f2.ticks_per_beat ≠ 0
            then some f2.ticks_per_beat else none))
          = mids.filterMap (fun f2 => if f2.ticks_per_beat ≠ 0
              then some f2.ticks_per_beat else none) := by
        rw [List.filterMap_cons, if_neg hz]
      rw [hfm]

/-- **C10** (ticks-per-beat of the last file wins).  The ticks-per-beat
returned by extraction is the last nonzero `ticks_per_beat` among the
processed files (default 480 when none), not an aggregate; and appending a
final file to the corpus processes that file's events with the
ticks-per-beat current while it is processed (its own if nonzero, otherwise
the value inherited from the earlier files), starting from the accumulated
state of the earlier files. -/
theorem ticks_per_beat_last_file (mids : List MidiFile) (f : MidiFile) :
    (extract_sequences mids).2.2.1
      = ((mids.filterMap (fun f2 => if f2.ticks_per_beat ≠ 0
            then some f2.ticks_per_beat else none)).getLast?).getD 480 ∧
    (extract_sequences (mids ++ [f])).2.2.1
      = (if f.ticks_per_beat ≠ 0 then f.ticks_per_beat
         else (extract_sequences mids).2.2.1) ∧
    (extract_sequences (mids ++ [f])).1
      = (((fileEvents f).foldl
          (process_event (if f.ticks_per_beat ≠ 0 then f.ticks_per_beat
            else (extract_sequences mids).2.2.1))
          (⟨(extract_sequences mids).1, (extract_sequences mids).2.1,
            (extract_sequences mids).2.2.2⟩, [])).1).seqs := by
  refine ⟨extract_tpb_foldl mids _, ?_, ?_⟩
  · show ((mids ++ [f]).foldl process_file
        (⟨[], [], 500000⟩, 480)).2 = _
    rw [List.foldl_append]
    rfl
  · show ((mids ++ [f]).foldl process_file
        (⟨[], [], 500000⟩, 480)).1.seqs = _
    rw [List.foldl_append]
    rfl

/-! ## Empty-corpus behaviour (C2) -/

/-- Unfolding of `generate_events` into the stepping loop (pure zeta
reduction of its local definitions, stated at abstract arguments). -/
theorem generate_events_run (models : List (ℕ × Trans))
    (seqs : List (ℕ × List (ℤ × ℤ))) (programs : List (ℕ × ℕ))
    (tpb tempo : ℕ) (pen g : ℕ → ℚ) :
    (generate_events models seqs programs tpb tempo pen g).1
      = (generate_run models (fun ch => (alGetD seqs ch []).map Prod.fst)
          (if ((List.insertionSort
              (fun a b : ℕ × List (ℤ × ℤ) => b.2.length ≤ a.2.length)
              seqs).map Prod.fst).take MAX_CHANNELS = []
           then [0, 1, 2, 3]
           else ((List.insertionSort
              (fun a b : ℕ × List (ℤ × ℤ) => b.2.length ≤ a.2.length)
              seqs).map Prod.fst).take MAX_CHANNELS)
          pen g (BARS * 4 * tpb / GRID)).events := rfl

theorem generate_run_events_ne_nil (models : List (ℕ × Trans))
    (fallback_notes : ℕ → List ℤ) (channels : List ℕ) (pen g : ℕ → ℚ) (n : ℕ)
    (h : (generate_run models fallback_notes channels pen g n).events ≠ []) :
    ∀ k : ℕ,
      (generate_run models fallback_notes channels pen g (n + k)).events ≠ [] := by
  intro k
  induction k with
  | zero => exact h
  | succ m ih =>
    rcases generate_step_cases models fallback_notes channels pen g
        (generate_run models fallback_notes channels pen g (n + m)) (n + m) with
      ⟨hev, _, _⟩ | ⟨_, _, d, note, _, _, hev, _, _⟩
    · rw [show (n + (m + 1)) = (n + m) + 1 from rfl,
        show generate_run models fallback_notes channels pen g ((n + m) + 1)
          = generate_step models fallback_notes channels pen g
              (generate_run models fallback_notes channels pen g (n + m)) (n + m)
          from rfl, hev]
      exact ih
    · rw [show (n + (m + 1)) = (n + m) + 1 from rfl,
        show generate_run models fallback_notes channels pen g ((n + m) + 1)
          = generate_step models fallback_notes channels pen g
              (generate_run models fallback_notes channels pen g (n + m)) (n + m)
          from rfl, hev]
      simp

theorem run_notes_60 (fallback_notes : ℕ → List ℤ)
    (hfb : ∀ ch, fallback_notes ch = []) (channels : List ℕ) (pen g : ℕ → ℚ) :
    ∀ n, ∀ e ∈ (generate_run [] fallback_notes channels pen g n).events,
      e.note = 60 := by
  intro n
  induction n with
  | zero => intro e he; simp [generate_run] at he
  | succ m ih =>
    intro e he
    rw [show generate_run [] fallback_notes channels pen g (m + 1)
        = generate_step [] fallback_notes channels pen g
            (generate_run [] fallback_notes channels pen g m) m from rfl] at he
    simp only [generate_step] at he
    by_cases h1 : m * GRID < alGetD
        (generate_run [] fallback_notes channels pen g m).active_until
        (channels.getD (m % channels.length) 0) 0 ∨
      ¬ busyCount
          (generate_run [] fallback_notes channels pen g m).active_until
          (m * GRID) < MAX_GLOBAL_POLY
    · rw [if_pos h1] at he
      exact ih e he
    · rw [if_neg h1] at he
      by_cases h2 : ¬ g (generate_run [] fallback_notes channels pen g m).rng
          < ONSET_PROB
      · rw [if_pos h2] at he
        exact ih e he
      · rw [if_neg h2] at he
        rcases List.mem_append.mp he with hold | hnew
        · exact ih e hold
        · have h60 : (choose_note
              (alGetD (alGetD ([] : List (ℕ × Trans))
                  (channels.getD (m % channels.length) 0) [])
                (alGet? (generate_run [] fallback_notes channels pen g m).last_note
                  (channels.getD (m % channels.length) 0)) [])
              (alGet? (generate_run [] fallback_notes channels pen g m).last_note
                (channels.getD (m % channels.length) 0))
              (fallback_notes (channels.getD (m % channels.length) 0)) pen g
              ((generate_run [] fallback_notes channels pen g m).rng + 1 + 1)).1
              = 60 := by
            rw [hfb]
            rfl
          rcases (by simpa using hnew :
              e = ⟨m * GRID, channels.getD (m % channels.length) 0, true,
                    (choose_note
                      (alGetD (alGetD ([] : List (ℕ × Trans))
                          (channels.getD (m % channels.length) 0) [])
                        (alGet? (generate_run [] fallback_notes channels
                            pen g m).last_note
                          (channels.getD (m % channels.length) 0)) [])
                      (alGet? (generate_run [] fallback_notes channels
                          pen g m).last_note
                        (channels.getD (m % channels.length) 0))
                      (fallback_notes (channels.getD (m % channels.length) 0))
                      pen g
                      ((generate_run [] fallback_notes channels pen g m).rng
                        + 1 + 1)).1, 96⟩ ∨
              e = ⟨m * GRID + (if MAX_GLOBAL_POLY - 1 ≤ busyCount
                      (generate_run [] fallback_notes channels pen g
                        m).active_until (m * GRID)
                    then choices12 (g ((generate_run [] fallback_notes channels
                        pen g m).rng + 1))
                    else choices124 (g ((generate_run [] fallback_notes channels
                        pen g m).rng + 1))) * GRID,
                  channels.getD (m % channels.length) 0, false,
                    (choose_note
                      (alGetD (alGetD ([] : List (ℕ × Trans))
                          (channels.getD (m % channels.length) 0) [])
                        (alGet? (generate_run [] fallback_notes channels
                            pen g m).last_note
                          (channels.getD (m % channels.length) 0)) [])
                      (alGet? (generate_run [] fallback_notes channels
                          pen g m).last_note
                        (channels.getD (m % channels.length) 0))
                      (fallback_notes (channels.getD (m % channels.length) 0))
                      pen g
                      ((generate_run [] fallback_notes channels pen g m).rng
                        + 1 + 1)).1, 0⟩) with he1 | he2
          · rw [he1]
            exact h60
          · rw [he2]
            exact h60

/-- **C2, amended** (empty corpus).  When no MIDI file loads, `main` returns
before generation (zero events).  But empty per-voice sequences alone do not
imply zero note events: generation falls back to channels `[0, 1, 2, 3]` and
every note it emits (possibly many) has pitch 60. -/
theorem empty_corpus_fallback (pen g : ℕ → ℚ) (progs : List (ℕ × ℕ))
    (tpb tempo : ℕ) :
    run_pipeline [] pen g = none ∧
    (generate_events (build_markov_models []) [] progs tpb tempo pen g).2
      = [0, 1, 2, 3] ∧
    (∀ e ∈ (generate_events (build_markov_models []) [] progs tpb tempo
        pen g).1, e.note = 60) := by
    refine ⟨rfl, rfl, ?_⟩
    intro e he
    exact run_notes_60 (fun ch =>
        (alGetD ([] : List (ℕ × List (ℤ × ℤ))) ch []).map Prod.fst)
      (fun ch => rfl) [0, 1, 2, 3] pen g (BARS * 4 * tpb / GRID) e he

/-- Counterexample to C2 as stated: with empty sequences for all voices but
at least one loaded file, the generation output is *not* empty for the
all-zero draw stream (the first step emits a pitch-60 note). -/
theorem empty_corpus_counterexample :
    (generate_events (build_markov_models []) [] [] 480 500000
        (fun _ => 0) (fun _ => 0)).1 ≠ [] := by
  have h1 : (generate_run (build_markov_models []) (fun ch =>
      (alGetD ([] : List (ℕ × List (ℤ × ℤ))) ch []).map Prod.fst)
      [0, 1, 2, 3] (fun _ => 0) (fun _ => 0) 1).events ≠ [] := by decide
  have h2 := generate_run_events_ne_nil (build_markov_models []) (fun ch =>
      (alGetD ([] : List (ℕ × List (ℤ × ℤ))) ch []).map Prod.fst)
      [0, 1, 2, 3] (fun _ => 0) (fun _ => 0) 1 h1 255
  have hge := generate_events_run (build_markov_models []) [] [] 480 500000
    (fun _ => 0) (fun _ => 0)
  have hch : (if ((List.insertionSort
        (fun a b : ℕ × List (ℤ × ℤ) => b.2.length ≤ a.2.length)
        ([] : List (ℕ × List (ℤ × ℤ)))).map Prod.fst).take MAX_CHANNELS = []
      then [0, 1, 2, 3]
      else ((List.insertionSort
        (fun a b : ℕ × List (ℤ × ℤ) => b.2.length ≤ a.2.length)
        ([] : List (ℕ × List (ℤ × ℤ)))).map Prod.fst).take MAX_CHANNELS)
      = [0, 1, 2, 3] := rfl
  have h3 : BARS * 4 * 480 / GRID = 1 + 255 := by decide
  rw [hge, hch, h3]
  exact h2

/-- Witness for the amended C2: with `tpb = 2` the grid has one step, and the
single emitted note-on indeed carries pitch 60. -/
theorem empty_corpus_fallback_witness :
    (⟨0, 0, true, 60, 96⟩ : GEv).note = 60 :=
  (empty_corpus_fallback (fun _ => 0) (fun _ => 0) [] 2 500000).2.2
    ⟨0, 0, true, 60, 96⟩ (by decide)

/-! ## End-to-end determinism (C8) -/

theorem sorted_perm_nodup_eq (l1 l2 : List (ℕ × MidiFile))
    (hperm : l1.Perm l2) (hnodup : (l1.map Prod.fst).Nodup)
    (hs1 : l1.Sorted (fun a b => a.1 ≤ b.1))
    (hs2 : l2.Sorted (fun a b => a.1 ≤ b.1)) : l1 = l2 := by
  haveI : IsAntisymm (ℕ × MidiFile) (fun a b => a.1 < b.1) :=
    ⟨fun a b hab hba => absurd hba (lt_asymm hab)⟩
  have hnodup2 : (l2.map Prod.fst).Nodup :=
    ((hperm.map Prod.fst).nodup_iff).mp hnodup
  have hne1 : l1.Pairwise (fun a b => a.1 ≠ b.1) := List.pairwise_map.mp hnodup
  have hne2 : l2.Pairwise (fun a b => a.1 ≠ b.1) := List.pairwise_map.mp hnodup2
  have hlt1 : l1.Sorted (fun a b : ℕ × MidiFile => a.1 < b.1) :=
    (hs1.and hne1).imp (fun hab => lt_of_le_of_ne hab.1 hab.2)
  have hlt2 : l2.Sorted (fun a b : ℕ × MidiFile => a.1 < b.1) :=
    (hs2.and hne2).imp (fun hab => lt_of_le_of_ne hab.1 hab.2)
  exact List.eq_of_perm_of_sorted hperm hlt1 hlt2

theorem load_midis_perm_eq (dir dir2 : List (ℕ × MidiFile))
    (hperm : dir.Perm dir2) (hnodup : (dir.map Prod.fst).Nodup) :
    load_midis dir = load_midis dir2 := by
  haveI hto : IsTotal (ℕ × MidiFile) (fun a b => a.1 ≤ b.1) :=
    ⟨fun a b => Nat.le_total a.1 b.1⟩
  haveI htr : IsTrans (ℕ × MidiFile) (fun a b => a.1 ≤ b.1) :=
    ⟨fun a b c hab hbc => Nat.le_trans hab hbc⟩
  unfold load_midis
  congr 1
  apply sorted_perm_nodup_eq
  · exact ((List.perm_insertionSort _ dir).trans hperm).trans
      (List.perm_insertionSort _ dir2).symm
  · exact ((List.perm_insertionSort (fun a b => a.1 ≤ b.1) dir).map
      Prod.fst).nodup_iff.mpr hnodup
  · exact List.sorted_insertionSort _ dir
  · exact List.sorted_insertionSort _ dir2

/-- **C8** (end-to-end determinism).  The whole pipeline is a pure function
of the directory contents and the draw stream: two runs with the same files
(even listed in different orders — loading sorts names lexicographically,
and real directory listings have distinct names), the same penalty function
and an identical seeded draw stream produce identical output track lists. -/
theorem pipeline_deterministic (dir dir2 : List (ℕ × MidiFile))
    (pen pen2 g g2 : ℕ → ℚ)
    (hperm : dir.Perm dir2) (hnodup : (dir.map Prod.fst).Nodup)
    (hpen : pen = pen2) (hg : g = g2) :
    main dir pen g = main dir2 pen2 g2 := by
  subst hpen
  subst hg
  unfold main
  rw [load_midis_perm_eq dir dir2 hperm hnodup]

/-- Witness for C8: two listings of the same two files, in opposite orders. -/
theorem pipeline_deterministic_witness :
    main [(1, ⟨240, []⟩), (0, ⟨480, []⟩)] (fun _ => 0) (fun _ => 0)
      = main [(0, ⟨480, []⟩), (1, ⟨240, []⟩)] (fun _ => 0) (fun _ => 0) :=
  pipeline_deterministic _ _ _ _ _ _ (List.Perm.swap _ _ _) (by decide) rfl rfl

end StreamGen
